import Mathlib

/-
Verification of the auger-state subscription engine (src/src/index.tsx).

The embedding models the core `AugerStore` class:
  * `SubKey` — the `string | number` property keys occurring in subscription
    paths and in the change-paths (immer patch paths).  `symbol` keys are
    omitted: no operation of the store nor any patch path can produce one in
    the modelled scenarios.
  * `SubscriberNode` / `ChildMap` — the subscriber tree.  A JS `Map` is an
    insertion-ordered association of keys to values; `ChildMap` is that
    association list.  A JS `Set` of callbacks is an insertion-ordered
    duplicate-free list; listener callbacks are identified by `Nat` ids and a
    `subs` set of a node is a `List Nat`.
  * `subscribe`, `unsubscribeAt` — `AugerStore.subscribe` and the action of
    the closure it returns.  The closure deletes the callback from the set of
    the terminal node object; since nodes are mutated in place and never
    replaced, that node is exactly the node addressed by the subscription
    path, which is how `unsubscribeAt` locates it.
  * `notifyPath` / `notifyAllChildren` — the notification walk.  Invoking a
    listener is modelled by appending its id to the returned invocation list,
    so the list records which listeners run and in which order.
  * `Store` / `update` — the class holding the root node and the state
    snapshot.  `produceWithPatches` of immer is the external Mutator
    collaborator: it is passed in as a function from the current snapshot to
    either an exception or a pair of next snapshot and ordered change-paths,
    exactly the data the source destructures from it.
  * `JSValue` / `readValue` — the dynamic values of the state snapshot and
    the `$read` facade walk over them.  Property access `value[key]` follows
    the JS own-property semantics of the data domain: keys coerced to
    strings; plain objects read by field; arrays expose their elements at
    canonical index strings and their own `length`; string primitives expose
    their characters at canonical index strings and their own `length`;
    numbers and booleans own no properties.  `Map` values are read with
    `Map.get` under key identity, missing entries yielding `undefined`.
-/

namespace AugerState

/-- The `string | number` property keys of subscription paths and immer patch
paths (`type SubKey = string | number | symbol`; symbol keys are not
producible in the modelled scenarios and are omitted). -/
inductive SubKey where
  | str : String → SubKey
  | num : Int → SubKey
  deriving DecidableEq, Repr

/-- JS `String(k)`, as applied by `notifyPath` to each patch path segment
(`const key = String(path[i])`). -/
def keyToString : SubKey → String
  | .str s => s
  | .num n => toString n

mutual
/-- `SubscriberNode = {subs: Set<Subscription>; children: Map<SubKey, SubscriberNode>}`. -/
inductive SubscriberNode where
  | mk (subs : List Nat) (children : ChildMap)
  deriving DecidableEq, Repr
/-- The `children` JS `Map`: an insertion-ordered association of keys to
subscriber nodes. -/
inductive ChildMap where
  | nil
  | cons (key : SubKey) (node : SubscriberNode) (rest : ChildMap)
  deriving DecidableEq, Repr
end

def SubscriberNode.subs : SubscriberNode → List Nat
  | .mk s _ => s

def SubscriberNode.children : SubscriberNode → ChildMap
  | .mk _ c => c

/-- `createSubNode`: `{subs: new Set(), children: new Map()}`. -/
def createSubNode : SubscriberNode := .mk [] .nil

/-- JS `Map.prototype.get`: the value stored under the first (and only)
entry whose key equals the argument, or nothing. -/
def ChildMap.get : ChildMap → SubKey → Option SubscriberNode
  | .nil, _ => none
  | .cons k v rest, key => if k = key then some v else ChildMap.get rest key

/-- JS `Map.prototype.set`: overwrite the value of an existing key in place
(keeping its position), otherwise append the new entry at the end. -/
def ChildMap.set : ChildMap → SubKey → SubscriberNode → ChildMap
  | .nil, key, v => .cons key v .nil
  | .cons k w rest, key, v =>
      if k = key then .cons k v rest else .cons k w (ChildMap.set rest key v)

/-- JS `Set.prototype.add` on an insertion-ordered duplicate-free list:
append unless already present. -/
def subsAdd (l : List Nat) (s : Nat) : List Nat :=
  if s ∈ l then l else l ++ [s]

/-- JS `Set.prototype.delete`: remove the element if present (on a
duplicate-free list, removing every copy removes exactly that element). -/
def subsDelete (l : List Nat) (s : Nat) : List Nat :=
  l.filter (fun x => decide (x ≠ s))

/-- `AugerStore.subscribe`, tree part: walk down `path` from the node,
following (`children.get`) or lazily creating (`createSubNode` +
`children.set`) one child per segment, and add the callback to the listener
set of the terminal node.  Keys are stored exactly as given. -/
def subscribe : SubscriberNode → List SubKey → Nat → SubscriberNode
  | .mk subs children, [], s => .mk (subsAdd subs s) children
  | .mk subs children, key :: rest, s =>
      match ChildMap.get children key with
      | some c => .mk subs (ChildMap.set children key (subscribe c rest s))
      | none => .mk subs (ChildMap.set children key (subscribe createSubNode rest s))

/-- The closure returned by `AugerStore.subscribe`
(`() => { node.subs.delete(sub); }`): it deletes the callback from the
listener set of the terminal node of the subscription path.  Nodes are never
replaced or deleted, so the captured node object is the node addressed by
that path. -/
def unsubscribeAt : SubscriberNode → List SubKey → Nat → SubscriberNode
  | .mk subs children, [], s => .mk (subsDelete subs s) children
  | .mk subs children, key :: rest, s =>
      match ChildMap.get children key with
      | some c => .mk subs (ChildMap.set children key (unsubscribeAt c rest s))
      | none => .mk subs children

mutual
/-- `AugerStore.notifyAllChildren`: invoke the listeners of this node, then
recursively those of every descendant, children in the insertion order of
the child map. -/
def notifyAllChildren : SubscriberNode → List Nat
  | .mk subs children => subs ++ notifyChildren children
def notifyChildren : ChildMap → List Nat
  | .nil => []
  | .cons _ c rest => notifyAllChildren c ++ notifyChildren rest
end

/-- The loop of `AugerStore.notifyPath` after the own listeners of the root
have fired: at each segment look up `String(path[i])` in the child map of
the current node; stop if absent; at the last segment cascade with
`notifyAllChildren`, otherwise fire the own listeners of the child and
continue. -/
def notifyWalk : SubscriberNode → List SubKey → List Nat
  | _, [] => []
  | node, key :: rest =>
      match ChildMap.get node.children (.str (keyToString key)) with
      | none => []
      | some child =>
          match rest with
          | [] => notifyAllChildren child
          | _ :: _ => child.subs ++ notifyWalk child rest

/-- `AugerStore.notifyPath`: fire the listeners of the root node, then walk the
path. -/
def notifyPath (node : SubscriberNode) (path : List SubKey) : List Nat :=
  node.subs ++ notifyWalk node path

mutual
/-- Whether the callback id occurs in some listener set of the tree. -/
def mentions (s : Nat) : SubscriberNode → Bool
  | .mk subs children => decide (s ∈ subs) || mentionsChildren s children
def mentionsChildren (s : Nat) : ChildMap → Bool
  | .nil => false
  | .cons _ c rest => mentions s c || mentionsChildren s rest
end

/-- The node addressed by a path (keys compared as stored, the way
`subscribe` and the returned unsubscribe closure address nodes). -/
def nodeAt : SubscriberNode → List SubKey → Option SubscriberNode
  | node, [] => some node
  | node, key :: rest =>
      match ChildMap.get node.children key with
      | none => none
      | some c => nodeAt c rest

/-- The listener set of the node addressed by a path (empty when no such
node exists). -/
def subsAt (t : SubscriberNode) (p : List SubKey) : List Nat :=
  ((nodeAt t p).map SubscriberNode.subs).getD []

/-- `AugerStore`: the root subscriber node plus the current state snapshot. -/
structure Store (T : Type) where
  root : SubscriberNode
  state : T

/-- `AugerStore.getState`. -/
def Store.getState {T : Type} (st : Store T) : T :=
  st.state

/-- `AugerStore.subscribe` at the store level: only the subscriber tree is
touched. -/
def Store.subscribe {T : Type} (st : Store T) (path : List SubKey) (s : Nat) : Store T :=
  ⟨AugerState.subscribe st.root path s, st.state⟩

/-- The observable outcome of one `AugerStore.update` call: the store
afterwards, the listener invocations in order, and the exception propagated
to the caller, if any. -/
structure UpdateOutcome (T E : Type) where
  store : Store T
  invoked : List Nat
  thrown : Option E

/-- `AugerStore.update`: run the external Mutator
(`produceWithPatches(this.state, fn)`).  If it throws, the exception
propagates before the snapshot assignment, so nothing changes and no
listener runs.  Otherwise store the next snapshot and run `notifyPath` once
per patch path, in patch order (the `unstable_batchedUpdates` wrapper calls
its argument synchronously). -/
def update {T E : Type} (st : Store T)
    (produceWithPatches : T → Except E (T × List (List SubKey))) : UpdateOutcome T E :=
  match produceWithPatches st.state with
  | .error e => ⟨st, [], some e⟩
  | .ok (nextState, patches) =>
      ⟨⟨st.root, nextState⟩, (patches.map (notifyPath st.root)).flatten, none⟩

mutual
/-- Dynamic JS values making up a state snapshot: `null`, `undefined`,
primitives, plain objects, arrays, and `Map`s. -/
inductive JSValue where
  | null
  | undefined
  | bool (b : Bool)
  | num (n : Int)
  | str (s : String)
  | obj (fields : FieldMap)
  | arr (elems : ElemList)
  | jsmap (entries : EntryMap)
  deriving DecidableEq, Repr
/-- Own string-keyed properties of a plain object, in insertion order. -/
inductive FieldMap where
  | nil
  | cons (key : String) (value : JSValue) (rest : FieldMap)
  deriving DecidableEq, Repr
/-- Array elements in order. -/
inductive ElemList where
  | nil
  | cons (value : JSValue) (rest : ElemList)
  deriving DecidableEq, Repr
/-- Entries of a JS `Map`, keyed by `SubKey` identity, in insertion order. -/
inductive EntryMap where
  | nil
  | cons (key : SubKey) (value : JSValue) (rest : EntryMap)
  deriving DecidableEq, Repr
end

/-- JS `Map.prototype.get` on snapshot maps: `undefined` when the key is
absent. -/
def EntryMap.get : EntryMap → SubKey → JSValue
  | .nil, _ => .undefined
  | .cons k v rest, key => if k = key then v else EntryMap.get rest key

/-- Own-property read of a plain object: `undefined` when the field is
absent. -/
def FieldMap.get : FieldMap → String → JSValue
  | .nil, _ => .undefined
  | .cons k v rest, key => if k = key then v else FieldMap.get rest key

/-- Array element access by property key: the element when the key is the
canonical string of an index below the length, otherwise `undefined`. -/
def ElemList.get : ElemList → String → Nat → JSValue
  | .nil, _, _ => .undefined
  | .cons v rest, key, i => if key = toString i then v else ElemList.get rest key (i + 1)

/-- Number of elements of an array. -/
def ElemList.length : ElemList → Nat
  | .nil => 0
  | .cons _ rest => ElemList.length rest + 1

/-- Own indexed properties of a string primitive: the one-character string
at a canonical index below the length, otherwise `undefined` (JS exposes
the code units of a string as own properties; the characters modelled here
coincide with them on the basic plane). -/
def charsGet : List Char → String → Nat → JSValue
  | [], _, _ => .undefined
  | c :: rest, key, i =>
      if key = toString i then .str (String.mk [c]) else charsGet rest key (i + 1)

/-- JS `value[key]` own-property access on a non-`Map`, non-nullish value of
the state-data domain: the property key is coerced to a string; plain
objects yield the field; arrays yield their own `length` or the element at
a canonical index; string primitives yield their own `length` or the
character at a canonical index; numbers and booleans own no properties,
yielding `undefined`.  Prototype-chain properties (inherited methods) are
not data values of the snapshot domain and are outside the model. -/
def propGet : JSValue → SubKey → JSValue
  | .obj fields, key => FieldMap.get fields (keyToString key)
  | .arr elems, key =>
      if keyToString key = "length" then .num (ElemList.length elems)
      else ElemList.get elems (keyToString key) 0
  | .str s, key =>
      if keyToString key = "length" then .num s.length
      else charsGet s.data (keyToString key) 0
  | _, _ => .undefined

/-- Whether a value is absent (`value == null` in JS: `null` or
`undefined`). -/
def isAbsent : JSValue → Bool
  | .null => true
  | .undefined => true
  | _ => false

/-- The loop of the `$read` handle of `createAugerHandles`: starting from the
current snapshot, per path segment read `value.get(key)` when the value is a
`Map`, return the value itself when it is nullish (`value == null`), and read
`value[key]` otherwise; return the final value. -/
def readValue : JSValue → List SubKey → JSValue
  | value, [] => value
  | value, key :: rest =>
      match value with
      | .jsmap entries => readValue (EntryMap.get entries key) rest
      | .null => .null
      | .undefined => .undefined
      | v => readValue (propGet v key) rest

/-- The `$read` facade operation on a store whose snapshot is a dynamic JS
value: read the current snapshot at the accumulated path. -/
def Store.read (st : Store JSValue) (path : List SubKey) : JSValue :=
  readValue st.getState path

/-- A Mutator outcome fixture: succeed with the unchanged snapshot and the
given change-paths (the shape `produceWithPatches` returns when the updater
mutated the given locations). -/
def produceOk (ps : List (List SubKey)) : Nat → Except Unit (Nat × List (List SubKey)) :=
  fun s => .ok (s, ps)

/-- Fixture tree: listeners 1, 2, 3 subscribed at paths `['a']`, `['a','b']`
and `['a','c']` of a fresh store. -/
def treeABC : SubscriberNode :=
  subscribe
    (subscribe
      (subscribe createSubNode [.str "a"] 1)
      [.str "a", .str "b"] 2)
    [.str "a", .str "c"] 3

/-- Fixture store over `treeABC` with a numeric snapshot. -/
def storeABC : Store Nat := ⟨treeABC, 0⟩

/-- Claim C1: with listeners subscribed at `['a']` (id 1), `['a','b']` (id 2)
and `['a','c']` (id 3), an update whose change-path list is `[['a']]` invokes
all three listeners, and an update whose change-path list is `[['a','b']]`
invokes the listeners at `['a']` and `['a','b']` but not the one at the
sibling path `['a','c']`. -/
theorem claim_C1 :
    (update storeABC (produceOk [[.str "a"]])).invoked = [1, 2, 3] ∧
    (1 ∈ (update storeABC (produceOk [[.str "a"]])).invoked ∧
      2 ∈ (update storeABC (produceOk [[.str "a"]])).invoked ∧
      3 ∈ (update storeABC (produceOk [[.str "a"]])).invoked) ∧
    (update storeABC (produceOk [[.str "a", .str "b"]])).invoked = [1, 2] ∧
    (1 ∈ (update storeABC (produceOk [[.str "a", .str "b"]])).invoked ∧
      2 ∈ (update storeABC (produceOk [[.str "a", .str "b"]])).invoked ∧
      3 ∉ (update storeABC (produceOk [[.str "a", .str "b"]])).invoked) := by
  decide

/-- Claim C4: if the Mutator (`produceWithPatches` applied to the updater)
throws, `update` propagates the failure to its caller, the stored snapshot
and the subscriber tree are exactly those from before the call, and no
listener is invoked. -/
theorem claim_C4 {T E : Type} (st : Store T)
    (m : T → Except E (T × List (List SubKey))) (e : E)
    (h : m st.state = .error e) :
    update st m = ⟨st, [], some e⟩ := by
  unfold update
  rw [h]

/-- Witness for claim C4 at a concrete store and a throwing Mutator. -/
theorem claim_C4_witness :
    update (⟨.mk [1] .nil, 0⟩ : Store Nat) (fun _ => .error 7) =
      ⟨⟨.mk [1] .nil, 0⟩, [], some 7⟩ :=
  claim_C4 ⟨.mk [1] .nil, 0⟩ (fun _ => .error 7) 7 rfl

/-- Claim C10: for the empty change-path (a wholesale replacement of the
whole state) only the listeners of the root node are invoked, no descendant
listener fires: `notifyPath` on `[]` returns exactly the root listener set,
and an update producing just the change-path `[]` invokes exactly that
set. -/
theorem claim_C10 :
    (∀ t : SubscriberNode, notifyPath t [] = t.subs) ∧
    ∀ (T E : Type) (st : Store T) (m : T → Except E (T × List (List SubKey))) (next : T),
      m st.state = .ok (next, [[]]) → (update st m).invoked = st.root.subs := by
  constructor
  · intro t
    simp [notifyPath, notifyWalk]
  · intro T E st m next h
    unfold update
    rw [h]
    simp [notifyPath, notifyWalk]

/-- Witness for claim C10: an update replacing the whole snapshot of a store
with root listeners 4 and 5 and a descendant listener 6 invokes exactly 4
and 5. -/
theorem claim_C10_witness :
    (update (⟨.mk [4, 5] (.cons (.str "a") (.mk [6] .nil) .nil), 0⟩ : Store Nat)
        (produceOk [[]])).invoked = [4, 5] :=
  claim_C10.2 Nat Unit ⟨.mk [4, 5] (.cons (.str "a") (.mk [6] .nil) .nil), 0⟩
    (produceOk [[]]) 0 rfl

/-- Claim C3: when the root node has no child under the (string-coerced)
first segment of a change-path, the walk stops at once: only the root
listeners are invoked, both at the `notifyPath` level and for a whole
`update` producing only that change-path. -/
theorem claim_C3 :
    (∀ (t : SubscriberNode) (k : SubKey) (rest : List SubKey),
      ChildMap.get t.children (.str (keyToString k)) = none →
      notifyPath t (k :: rest) = t.subs) ∧
    ∀ (T E : Type) (st : Store T) (m : T → Except E (T × List (List SubKey)))
      (next : T) (k : SubKey) (rest : List SubKey),
      m st.state = .ok (next, [k :: rest]) →
      ChildMap.get st.root.children (.str (keyToString k)) = none →
      (update st m).invoked = st.root.subs := by
  have walk : ∀ (t : SubscriberNode) (k : SubKey) (rest : List SubKey),
      ChildMap.get t.children (.str (keyToString k)) = none →
      notifyPath t (k :: rest) = t.subs := by
    intro t k rest h
    obtain ⟨subs, children⟩ := t
    simp only [SubscriberNode.children] at h
    simp [notifyPath, notifyWalk, SubscriberNode.subs, SubscriberNode.children, h]
  refine ⟨walk, ?_⟩
  intro T E st m next k rest h hm
  unfold update
  rw [h]
  simp [walk st.root k rest hm]

/-- Witness for claim C3: in `storeABC` no child exists under `'x'`, so an
update producing change-path `['x']` invokes no listener (the root set is
empty), and `notifyPath` on a one-listener root likewise returns only the
root set. -/
theorem claim_C3_witness :
    (update storeABC (produceOk [[.str "x"]])).invoked = [] ∧
    notifyPath (.mk [9] .nil) [.str "x"] = [9] := by
  constructor
  · exact claim_C3.2 Nat Unit storeABC (produceOk [[.str "x"]]) 0 (.str "x") [] rfl rfl
  · exact claim_C3.1 (.mk [9] .nil) (.str "x") [] rfl

/-- Fixture tree: a listener with id 1 subscribed with the numeric key `0`
(the raw integer array index, as a hook subscribing through an array index
stores it). -/
def treeNum : SubscriberNode := subscribe createSubNode [.num 0] 1

/-- Fixture tree: `treeNum` with a further listener, id 2, subscribed at the
string form `'0'` of the same index. -/
def treeNumStr : SubscriberNode := subscribe treeNum [.str "0"] 2

/-- Claim C9: `subscribe` stores child keys exactly as given while the
notification walk coerces every change-path segment to a string before the
child lookup; hence the listener subscribed under the integer key `0` hangs
under the key `SubKey.num 0`, is not reachable under `'0'`, and is never
invoked by any change-path at all, while a listener subscribed at the string
path `['0']` is invoked by the numeric change-path `[0]`. -/
theorem claim_C9 :
    ChildMap.get treeNum.children (.num 0) = some (.mk [1] .nil) ∧
    ChildMap.get treeNum.children (.str "0") = none ∧
    (∀ qs : List SubKey, notifyPath treeNum qs = []) ∧
    notifyPath treeNumStr [.num 0] = [2] ∧
    1 ∉ notifyPath treeNumStr [.num 0] ∧
    2 ∈ notifyPath treeNumStr [.num 0] := by
  refine ⟨by decide, by decide, ?_, by decide, by decide, by decide⟩
  intro qs
  have ht : treeNum = .mk [] (.cons (.num 0) (.mk [1] .nil) .nil) := rfl
  rw [ht]
  cases qs with
  | nil => simp [notifyPath, notifyWalk, SubscriberNode.subs]
  | cons k rest =>
      simp [notifyPath, notifyWalk, SubscriberNode.subs, SubscriberNode.children,
        ChildMap.get]

mutual
/-- Every listener invoked by the descendant cascade occurs somewhere in the
listener sets of the cascaded subtree. -/
theorem mem_notifyAllChildren {s : Nat} : ∀ n : SubscriberNode,
    s ∈ notifyAllChildren n → mentions s n = true
  | .mk subs children, h => by
    rw [notifyAllChildren] at h
    rw [mentions]
    rcases List.mem_append.1 h with h1 | h2
    · simp [h1]
    · simp [mem_notifyChildren children h2]
theorem mem_notifyChildren {s : Nat} : ∀ cm : ChildMap,
    s ∈ notifyChildren cm → mentionsChildren s cm = true
  | .cons _ c rest, h => by
    rw [notifyChildren] at h
    rw [mentionsChildren]
    rcases List.mem_append.1 h with h1 | h2
    · simp [mem_notifyAllChildren c h1]
    · simp [mem_notifyChildren rest h2]
end

/-- A listener mentioned in a child found by `ChildMap.get` is mentioned in
the child map. -/
theorem mentionsChildren_of_get {s : Nat} {key : SubKey} {c : SubscriberNode} :
    ∀ cm : ChildMap, ChildMap.get cm key = some c → mentions s c = true →
    mentionsChildren s cm = true
  | .nil, hg, _ => by simp [ChildMap.get] at hg
  | .cons k v rest, hg, hm => by
    rw [ChildMap.get] at hg
    rw [mentionsChildren]
    by_cases hk : k = key
    · simp [hk] at hg
      simp [hg ▸ hm]
    · simp [hk] at hg
      simp [mentionsChildren_of_get rest hg hm]

/-- Every listener invoked by the walk below the root occurs in some listener
set of a child subtree of the starting node. -/
theorem mem_notifyWalk_mentionsChildren {s : Nat} :
    ∀ (p : List SubKey) (t : SubscriberNode),
    s ∈ notifyWalk t p → mentionsChildren s t.children = true := by
  intro p
  induction p with
  | nil => intro t h; simp [notifyWalk] at h
  | cons k rest ih =>
      intro t h
      obtain ⟨subs, children⟩ := t
      rw [notifyWalk] at h
      simp only [SubscriberNode.children] at h ⊢
      cases hg : ChildMap.get children (.str (keyToString k)) with
      | none => rw [hg] at h; simp at h
      | some child =>
          rw [hg] at h
          cases rest with
          | nil =>
              simp only at h
              exact mentionsChildren_of_get children hg (mem_notifyAllChildren child h)
          | cons k2 rest2 =>
              simp only at h
              rcases List.mem_append.1 h with h1 | h2
              · refine mentionsChildren_of_get children hg ?_
                obtain ⟨csubs, cchildren⟩ := child
                rw [mentions]
                simp [SubscriberNode.subs] at h1
                simp [h1]
              · refine mentionsChildren_of_get children hg ?_
                have hmc := ih _ h2
                obtain ⟨csubs, cchildren⟩ := child
                simp only [SubscriberNode.children] at hmc
                rw [mentions]
                simp [hmc]

/-- For a listener absent from every child subtree of the root, one
`notifyPath` run invokes it exactly as often as it occurs in the root
listener set. -/
theorem count_notifyPath_root {s : Nat} {t : SubscriberNode}
    (hnc : mentionsChildren s t.children = false) (p : List SubKey) :
    (notifyPath t p).count s = t.subs.count s := by
  rw [notifyPath, List.count_append]
  have hw : s ∉ notifyWalk t p := by
    intro hmem
    rw [mem_notifyWalk_mentionsChildren p t hmem] at hnc
    exact Bool.noConfusion hnc
  rw [List.count_eq_zero.2 hw]
  omega

/-- Counterexample to claim C2 as stated: a store whose root has the single
listener 0 and an update producing the two change-paths `['a']` and `['b']`
invoke that root listener twice in the one `update` call, not exactly
once. -/
theorem claim_C2_counterexample :
    (update (⟨.mk [0] .nil, 0⟩ : Store Nat)
        (produceOk [[.str "a"], [.str "b"]])).invoked = [0, 0] ∧
    ¬ ((update (⟨.mk [0] .nil, 0⟩ : Store Nat)
        (produceOk [[.str "a"], [.str "b"]])).invoked.count 0 = 1) := by
  decide

/-- Claim C2, amended: `update` runs one notification walk per change-path
and every walk begins by firing the root listeners, so a listener registered
once at the root path `[]` and nowhere else is invoked exactly once per
change-path — `n` times for an update producing `n` change-paths, and in
particular exactly once only when the update produced exactly one
change-path. -/
theorem claim_C2 {T E : Type} (st : Store T)
    (m : T → Except E (T × List (List SubKey))) (next : T)
    (ps : List (List SubKey)) (s : Nat)
    (h : m st.state = .ok (next, ps))
    (hone : st.root.subs.count s = 1)
    (hnc : mentionsChildren s st.root.children = false) :
    (update st m).invoked.count s = ps.length := by
  unfold update
  rw [h]
  simp only
  clear h
  induction ps with
  | nil => simp
  | cons p ps ih =>
      simp only [List.map_cons, List.flatten_cons, List.count_append, List.length_cons]
      rw [count_notifyPath_root hnc p, hone, ih]
      omega

/-- Witness for the amended claim C2: a root listener 0 with a child
listener 6 below `'a'` is invoked exactly twice by an update producing two
change-paths. -/
theorem claim_C2_witness :
    (update (⟨.mk [0] (.cons (.str "a") (.mk [6] .nil) .nil), 0⟩ : Store Nat)
        (produceOk [[.str "a"], [.str "b"]])).invoked.count 0 = 2 :=
  claim_C2 ⟨.mk [0] (.cons (.str "a") (.mk [6] .nil) .nil), 0⟩
    (produceOk [[.str "a"], [.str "b"]]) 0 [[.str "a"], [.str "b"]] 0
    rfl (by decide) (by decide)

/-- The `$read` walk on an absent value returns that value unchanged for any
remaining path. -/
theorem readValue_absent : ∀ p : List SubKey,
    readValue .null p = .null ∧ readValue .undefined p = .undefined := by
  intro p
  cases p with
  | nil => exact ⟨rfl, rfl⟩
  | cons k rest => exact ⟨rfl, rfl⟩

/-- The `$read` walk splits along path concatenation: reading `p ++ q` is
reading `q` from the value read at `p` (early nullish returns agree on both
sides). -/
theorem readValue_append : ∀ (p q : List SubKey) (v : JSValue),
    readValue v (p ++ q) = readValue (readValue v p) q := by
  intro p
  induction p with
  | nil => intro q v; rfl
  | cons k rest ih =>
      intro q v
      cases v with
      | null => simp [readValue, (readValue_absent q).1]
      | undefined => simp [readValue, (readValue_absent q).2]
      | jsmap entries => simp [readValue, ih]
      | obj fields => simp [readValue, ih]
      | arr elems => simp [readValue, ih]
      | num n => simp [readValue, ih]
      | str s => simp [readValue, ih]
      | bool b => simp [readValue, ih]

/-- Counterexample to claim C6 as stated: indexing into the string
primitive `"abc"` at segment 0 returns the character `'a'` and the own
`length` property of a two-element array returns the number 2 — non-absent
results where the claim demands an absent value for every index into a
primitive. -/
theorem claim_C6_counterexample :
    readValue (.str "abc") [.num 0] = .str "a" ∧
    isAbsent (readValue (.str "abc") [.num 0]) = false ∧
    readValue (.arr (.cons (.num 7) (.cons (.num 8) .nil))) [.str "length"] = .num 2 ∧
    isAbsent (readValue (.arr (.cons (.num 7) (.cons (.num 8) .nil)))
      [.str "length"]) = false := by
  refine ⟨rfl, rfl, rfl, rfl⟩

/-- Claim C6, amended: the `$read` facade walk is a total function that
never fails: reading any path from an absent (`null`/`undefined`) value
returns that absent value, and a missing `Map` key, a missing object field,
an out-of-range or non-index non-`length` array key, any key of a number or
boolean, and a non-index non-`length` key of a string all produce
`undefined`, a miss at any depth propagating through the path-splitting
equation — except that the own properties primitives and arrays do expose
read through to their (non-absent) values: the `length` of an array or
string, and the character of a string at an in-range canonical index. -/
theorem claim_C6 :
    (∀ (p : List SubKey), readValue .null p = .null ∧
      readValue .undefined p = .undefined ∧
      isAbsent (readValue .null p) = true ∧ isAbsent (readValue .undefined p) = true) ∧
    (∀ (entries : EntryMap) (k : SubKey) (rest : List SubKey),
      EntryMap.get entries k = .undefined →
      readValue (.jsmap entries) (k :: rest) = .undefined) ∧
    (∀ (fields : FieldMap) (k : SubKey) (rest : List SubKey),
      FieldMap.get fields (keyToString k) = .undefined →
      readValue (.obj fields) (k :: rest) = .undefined) ∧
    (∀ (elems : ElemList) (k : SubKey) (rest : List SubKey),
      keyToString k ≠ "length" →
      ElemList.get elems (keyToString k) 0 = .undefined →
      readValue (.arr elems) (k :: rest) = .undefined) ∧
    (∀ (elems : ElemList) (k : SubKey) (rest : List SubKey),
      keyToString k = "length" →
      readValue (.arr elems) (k :: rest) =
        readValue (.num (ElemList.length elems)) rest) ∧
    (∀ (n : Int) (k : SubKey) (rest : List SubKey),
      readValue (.num n) (k :: rest) = .undefined) ∧
    (∀ (b : Bool) (k : SubKey) (rest : List SubKey),
      readValue (.bool b) (k :: rest) = .undefined) ∧
    (∀ (s : String) (k : SubKey) (rest : List SubKey),
      keyToString k ≠ "length" →
      readValue (.str s) (k :: rest) =
        readValue (charsGet s.data (keyToString k) 0) rest) ∧
    (∀ (s : String) (k : SubKey) (rest : List SubKey),
      keyToString k ≠ "length" →
      charsGet s.data (keyToString k) 0 = .undefined →
      readValue (.str s) (k :: rest) = .undefined) ∧
    (∀ (s : String) (k : SubKey) (rest : List SubKey),
      keyToString k = "length" →
      readValue (.str s) (k :: rest) = readValue (.num s.length) rest) ∧
    (∀ (st : Store JSValue) (p q : List SubKey),
      Store.read st (p ++ q) = readValue (Store.read st p) q) := by
  refine ⟨?_, ?_, ?_, ?_, ?_, ?_, ?_, ?_, ?_, ?_, ?_⟩
  · intro p
    obtain ⟨h1, h2⟩ := readValue_absent p
    exact ⟨h1, h2, by rw [h1]; rfl, by rw [h2]; rfl⟩
  · intro entries k rest h
    rw [readValue, h]
    exact (readValue_absent rest).2
  · intro fields k rest h
    show readValue (propGet (.obj fields) k) rest = .undefined
    rw [propGet, h]
    exact (readValue_absent rest).2
  · intro elems k rest hne h
    show readValue (propGet (.arr elems) k) rest = .undefined
    rw [propGet, if_neg hne, h]
    exact (readValue_absent rest).2
  · intro elems k rest hk
    show readValue (propGet (.arr elems) k) rest = _
    rw [propGet, if_pos hk]
  · intro n k rest
    show readValue JSValue.undefined rest = .undefined
    exact (readValue_absent rest).2
  · intro b k rest
    show readValue JSValue.undefined rest = .undefined
    exact (readValue_absent rest).2
  · intro s k rest hne
    show readValue (propGet (.str s) k) rest = _
    rw [propGet, if_neg hne]
  · intro s k rest hne h
    show readValue (propGet (.str s) k) rest = .undefined
    rw [propGet, if_neg hne, h]
    exact (readValue_absent rest).2
  · intro s k rest hk
    show readValue (propGet (.str s) k) rest = _
    rw [propGet, if_pos hk]
  · intro st p q
    exact readValue_append p q st.getState

/-- Witness for the amended claim C6 at concrete snapshots: a missing map
key, a missing field, a numeric index past an array end, a key of a number,
a non-index key of a string, and a read into a nullish branch all yield
absent values, while the own `length` of an array reads through to its
element count. -/
theorem claim_C6_witness :
    readValue (.jsmap (.cons (.str "k") (.num 5) .nil)) [.str "zz", .str "w"] = .undefined ∧
    readValue (.obj (.cons "name" (.str "Sawyer") .nil)) [.str "age"] = .undefined ∧
    readValue (.arr (.cons (.num 1) .nil)) [.num 3] = .undefined ∧
    readValue (.num 26) [.str "age"] = .undefined ∧
    readValue (.str "abc") [.str "x"] = .undefined ∧
    readValue (.arr (.cons (.num 1) .nil)) [.str "length"] =
      readValue (.num (ElemList.length (.cons (.num 1) .nil))) [] ∧
    readValue .null [.str "a", .str "b"] = .null := by
  refine ⟨?_, ?_, ?_, ?_, ?_, ?_, ?_⟩
  · exact claim_C6.2.1 (.cons (.str "k") (.num 5) .nil) (.str "zz") [.str "w"] (by decide)
  · exact claim_C6.2.2.1 (.cons "name" (.str "Sawyer") .nil) (.str "age") [] (by decide)
  · exact claim_C6.2.2.2.1 (.cons (.num 1) .nil) (.num 3) [] (by decide) (by decide)
  · exact claim_C6.2.2.2.2.2.1 26 (.str "age") []
  · exact claim_C6.2.2.2.2.2.2.2.2.1 "abc" (.str "x") [] (by decide) (by decide)
  · exact claim_C6.2.2.2.2.1 (.cons (.num 1) .nil) (.str "length") [] (by decide)
  · exact (claim_C6.1 [.str "a", .str "b"]).1

/-- Claim C7: within one `update` call the invocation order is: for each
change-path, in the order the diffing engine supplied them, the root
listeners first, then the listeners along the path in ancestor-to-descendant
order (each passed-through node contributes its own listener set before the
walk descends into the matched child), the terminal node cascading over its
whole subtree with each node before its children and sibling subtrees in the
insertion order of the child map — a deterministic order for a given tree. -/
theorem claim_C7 :
    (∀ (T E : Type) (st : Store T) (m : T → Except E (T × List (List SubKey)))
      (next : T) (ps : List (List SubKey)),
      m st.state = .ok (next, ps) →
      (update st m).invoked = (ps.map (notifyPath st.root)).flatten) ∧
    (∀ (t : SubscriberNode) (p : List SubKey),
      notifyPath t p = t.subs ++ notifyWalk t p) ∧
    (∀ (t : SubscriberNode) (k : SubKey) (rest : List SubKey) (child : SubscriberNode),
      rest ≠ [] →
      ChildMap.get t.children (.str (keyToString k)) = some child →
      notifyWalk t (k :: rest) = child.subs ++ notifyWalk child rest) ∧
    (∀ (t : SubscriberNode) (k : SubKey) (child : SubscriberNode),
      ChildMap.get t.children (.str (keyToString k)) = some child →
      notifyWalk t [k] = notifyAllChildren child) ∧
    (∀ (subs : List Nat) (children : ChildMap),
      notifyAllChildren (.mk subs children) = subs ++ notifyChildren children) ∧
    (∀ (k : SubKey) (c : SubscriberNode) (rest : ChildMap),
      notifyChildren (.cons k c rest) = notifyAllChildren c ++ notifyChildren rest) := by
  refine ⟨?_, ?_, ?_, ?_, ?_, ?_⟩
  · intro T E st m next ps h
    unfold update
    rw [h]
  · intro t p
    rfl
  · intro t k rest child hne hg
    rw [notifyWalk, hg]
    cases rest with
    | nil => exact absurd rfl hne
    | cons a b => rfl
  · intro t k child hg
    rw [notifyWalk, hg]
  · intro subs children
    rw [notifyAllChildren]
  · intro k c rest
    rw [notifyChildren]

/-- Witness for claim C7 on `storeABC`: the update producing change-paths
`[['a','b'], ['a']]` yields the flattened per-path invocation lists in
supplied order, and the walk along `['a','b']` fires the listener of the
ancestor `['a']` before descending. -/
theorem claim_C7_witness :
    (update storeABC (produceOk [[.str "a", .str "b"], [.str "a"]])).invoked =
      (([[.str "a", .str "b"], [.str "a"]].map (notifyPath storeABC.root)).flatten) ∧
    notifyWalk treeABC [.str "a", .str "b"] =
      (SubscriberNode.mk [1] (.cons (.str "b") (.mk [2] .nil)
        (.cons (.str "c") (.mk [3] .nil) .nil))).subs ++
      notifyWalk (.mk [1] (.cons (.str "b") (.mk [2] .nil)
        (.cons (.str "c") (.mk [3] .nil) .nil))) [.str "b"] := by
  constructor
  · exact claim_C7.1 Nat Unit storeABC (produceOk [[.str "a", .str "b"], [.str "a"]])
      0 [[.str "a", .str "b"], [.str "a"]] rfl
  · exact claim_C7.2.2.1 treeABC (.str "a") [.str "b"]
      (.mk [1] (.cons (.str "b") (.mk [2] .nil) (.cons (.str "c") (.mk [3] .nil) .nil)))
      (by decide) (by decide)

/-- After `ChildMap.set` the key maps to the stored value. -/
theorem get_set_self : ∀ (cm : ChildMap) (k : SubKey) (v : SubscriberNode),
    ChildMap.get (ChildMap.set cm k v) k = some v
  | .nil, k, v => by simp [ChildMap.set, ChildMap.get]
  | .cons k2 w rest, k, v => by
    rw [ChildMap.set]
    by_cases hk : k2 = k
    · simp [hk, ChildMap.get]
    · simp [hk, ChildMap.get, get_set_self rest k v]

/-- `ChildMap.set` leaves every other key unchanged. -/
theorem get_set_ne : ∀ (cm : ChildMap) (k : SubKey) (v : SubscriberNode) (j : SubKey),
    j ≠ k → ChildMap.get (ChildMap.set cm k v) j = ChildMap.get cm j
  | .nil, k, v, j, hj => by
    simp [ChildMap.set, ChildMap.get]
    intro h
    exact absurd h.symm hj
  | .cons k2 w rest, k, v, j, hj => by
    rw [ChildMap.set]
    by_cases hk : k2 = k
    · subst hk
      have : ¬ (k2 = j) := fun h => hj (h.symm)
      simp [ChildMap.get, this]
    · rw [if_neg hk, ChildMap.get, ChildMap.get, get_set_ne rest k v j hj]

/-- Overwriting the same key twice keeps only the second value. -/
theorem set_set : ∀ (cm : ChildMap) (k : SubKey) (v w : SubscriberNode),
    ChildMap.set (ChildMap.set cm k v) k w = ChildMap.set cm k w
  | .nil, k, v, w => by simp [ChildMap.set]
  | .cons k2 u rest, k, v, w => by
    rw [ChildMap.set]
    by_cases hk : k2 = k
    · simp [hk, ChildMap.set]
    · simp [hk, ChildMap.set, set_set rest k v w]

/-- `subsAt` through an existing child steps into that child. -/
theorem subsAt_cons_some {subs : List Nat} {children : ChildMap} {j : SubKey}
    {d : SubscriberNode} (qs : List SubKey) (hg : ChildMap.get children j = some d) :
    subsAt (.mk subs children) (j :: qs) = subsAt d qs := by
  rw [subsAt, nodeAt]
  simp only [SubscriberNode.children, hg]
  rfl

/-- `subsAt` at a missing child is the empty set. -/
theorem subsAt_cons_none {subs : List Nat} {children : ChildMap} {j : SubKey}
    (qs : List SubKey) (hg : ChildMap.get children j = none) :
    subsAt (.mk subs children) (j :: qs) = [] := by
  rw [subsAt, nodeAt]
  simp only [SubscriberNode.children, hg]
  rfl

/-- The unsubscribe closure deletes the callback from exactly the node its
subscription path addresses. -/
theorem nodeAt_unsubscribeAt_self : ∀ (p : List SubKey) (t : SubscriberNode) (s : Nat),
    nodeAt (unsubscribeAt t p s) p =
      (nodeAt t p).map (fun n => .mk (subsDelete n.subs s) n.children) := by
  intro p
  induction p with
  | nil =>
      intro t s
      obtain ⟨subs, children⟩ := t
      simp [unsubscribeAt, nodeAt, SubscriberNode.subs, SubscriberNode.children]
  | cons k rest ih =>
      intro t s
      obtain ⟨subs, children⟩ := t
      cases hg : ChildMap.get children k with
      | none =>
          simp only [unsubscribeAt, hg, nodeAt, SubscriberNode.children]
          rfl
      | some c =>
          simp only [unsubscribeAt, hg, nodeAt, SubscriberNode.children, get_set_self]
          exact ih c s

/-- The unsubscribe closure modifies no listener set at any other path. -/
theorem subsAt_unsubscribeAt_ne : ∀ (p q : List SubKey) (t : SubscriberNode) (s : Nat),
    q ≠ p → subsAt (unsubscribeAt t p s) q = subsAt t q := by
  intro p
  induction p with
  | nil =>
      intro q t s hq
      obtain ⟨subs, children⟩ := t
      cases q with
      | nil => exact absurd rfl hq
      | cons j qs =>
          rw [unsubscribeAt]
          cases hg : ChildMap.get children j with
          | none => rw [subsAt_cons_none qs hg, subsAt_cons_none qs hg]
          | some d => rw [subsAt_cons_some qs hg, subsAt_cons_some qs hg]
  | cons k rest ih =>
      intro q t s hq
      obtain ⟨subs, children⟩ := t
      cases hg : ChildMap.get children k with
      | none => simp only [unsubscribeAt, hg]
      | some c =>
          simp only [unsubscribeAt, hg]
          cases q with
          | nil => rw [subsAt, subsAt]; rfl
          | cons j qs =>
              by_cases hjk : j = k
              · subst hjk
                have hqs : qs ≠ rest := fun h => hq (by rw [h])
                rw [subsAt_cons_some qs (get_set_self children j (unsubscribeAt c rest s)),
                  subsAt_cons_some qs hg]
                exact ih qs c s hqs
              · have hgj := get_set_ne children k (unsubscribeAt c rest s) j hjk
                cases hj : ChildMap.get children j with
                | none =>
                    rw [subsAt_cons_none qs (hj ▸ hgj), subsAt_cons_none qs hj]
                | some d =>
                    rw [subsAt_cons_some qs (hj ▸ hgj), subsAt_cons_some qs hj]

/-- Running the unsubscribe closure a second time is a no-op on the tree. -/
theorem unsubscribeAt_idem : ∀ (p : List SubKey) (t : SubscriberNode) (s : Nat),
    unsubscribeAt (unsubscribeAt t p s) p s = unsubscribeAt t p s := by
  intro p
  induction p with
  | nil =>
      intro t s
      obtain ⟨subs, children⟩ := t
      simp [unsubscribeAt, subsDelete, List.filter_filter, Bool.and_self]
  | cons k rest ih =>
      intro t s
      obtain ⟨subs, children⟩ := t
      cases hg : ChildMap.get children k with
      | none =>
          simp only [unsubscribeAt, hg]
      | some c =>
          simp only [unsubscribeAt, hg, get_set_self, ih c s, set_set]

/-- A listener mentioned nowhere in a tree is never invoked by any
notification walk over that tree. -/
theorem not_invoked_of_not_mentions {s : Nat} {t : SubscriberNode}
    (hm : mentions s t = false) (qs : List SubKey) : s ∉ notifyPath t qs := by
  intro hmem
  obtain ⟨subs, children⟩ := t
  rw [mentions] at hm
  simp only [Bool.or_eq_false_iff, decide_eq_false_iff_not] at hm
  rw [notifyPath] at hmem
  rcases List.mem_append.1 hmem with h1 | h2
  · exact hm.1 (by simpa [SubscriberNode.subs] using h1)
  · have := mem_notifyWalk_mentionsChildren qs _ h2
    simp only [SubscriberNode.children] at this
    rw [this] at hm
    exact Bool.noConfusion hm.2

/-- Claim C5: invoking the function returned by `subscribe` removes exactly
that callback from the listener set of the terminal node — the set at the
subscription path loses exactly the callback, every other callback there and
every listener set at any other path are untouched, invoking the function a
second time is a no-op, and once the callback is registered nowhere it is
never invoked by any subsequent notification walk or `update`. -/
theorem claim_C5 (t : SubscriberNode) (p : List SubKey) (s : Nat) :
    subsAt (unsubscribeAt t p s) p = subsDelete (subsAt t p) s ∧
    (∀ s2, s2 ≠ s → ((s2 ∈ subsAt (unsubscribeAt t p s) p) ↔ s2 ∈ subsAt t p)) ∧
    (∀ q, q ≠ p → subsAt (unsubscribeAt t p s) q = subsAt t q) ∧
    unsubscribeAt (unsubscribeAt t p s) p s = unsubscribeAt t p s ∧
    (mentions s (unsubscribeAt t p s) = false →
      (∀ qs, s ∉ notifyPath (unsubscribeAt t p s) qs) ∧
      ∀ (T E : Type) (st : Store T) (m : T → Except E (T × List (List SubKey))),
        st.root = unsubscribeAt t p s → s ∉ (update st m).invoked) := by
  have hsubs : subsAt (unsubscribeAt t p s) p = subsDelete (subsAt t p) s := by
    rw [subsAt, nodeAt_unsubscribeAt_self]
    cases h : nodeAt t p with
    | none => simp [subsAt, h, subsDelete]
    | some n => simp [subsAt, h, SubscriberNode.subs]
  refine ⟨hsubs, ?_, ?_, unsubscribeAt_idem p t s, ?_⟩
  · intro s2 hs2
    rw [hsubs, subsDelete]
    simp [List.mem_filter, hs2]
  · intro q hq
    exact subsAt_unsubscribeAt_ne p q t s hq
  · intro hm
    refine ⟨not_invoked_of_not_mentions hm, ?_⟩
    intro T E st m hroot hmem
    unfold update at hmem
    cases hms : m st.state with
    | error e => rw [hms] at hmem; simp at hmem
    | ok v =>
        rw [hms] at hmem
        simp only at hmem
        rcases List.mem_flatten.1 hmem with ⟨l, hl, hsl⟩
        rcases List.mem_map.1 hl with ⟨pth, _, hpl⟩
        rw [← hpl, hroot] at hsl
        exact not_invoked_of_not_mentions hm pth hsl

/-- Witness for claim C5: unsubscribing listener 1 at `['a']` in `treeABC`
empties exactly that set, keeps the sets at `['a','b']` and `['a','c']`, is
idempotent, and listener 1 is no longer invoked by an update producing
change-path `['a']`. -/
theorem claim_C5_witness :
    subsAt (unsubscribeAt treeABC [.str "a"] 1) [.str "a"] =
      subsDelete (subsAt treeABC [.str "a"]) 1 ∧
    subsAt (unsubscribeAt treeABC [.str "a"] 1) [.str "a", .str "b"] =
      subsAt treeABC [.str "a", .str "b"] ∧
    unsubscribeAt (unsubscribeAt treeABC [.str "a"] 1) [.str "a"] 1 =
      unsubscribeAt treeABC [.str "a"] 1 ∧
    1 ∉ (update (⟨unsubscribeAt treeABC [.str "a"] 1, 0⟩ : Store Nat)
        (produceOk [[.str "a"]])).invoked := by
  obtain ⟨h1, h2, h3, h4, h5⟩ := claim_C5 treeABC [.str "a"] 1
  refine ⟨h1, h3 [.str "a", .str "b"] (by decide), h4, ?_⟩
  exact (h5 (by decide)).2 Nat Unit ⟨unsubscribeAt treeABC [.str "a"] 1, 0⟩
    (produceOk [[.str "a"]]) rfl

/-- `Set.add` always leaves the added element in the set. -/
theorem mem_subsAdd (l : List Nat) (s : Nat) : s ∈ subsAdd l s := by
  by_cases h : s ∈ l <;> simp [subsAdd, h]

/-- `subscribe` never deletes a node: every node addressed before is still
addressed after. -/
theorem nodeAt_subscribe_preserved :
    ∀ (q p : List SubKey) (t : SubscriberNode) (s : Nat) (n : SubscriberNode),
    nodeAt t q = some n → ∃ n2, nodeAt (subscribe t p s) q = some n2 := by
  intro q
  induction q with
  | nil =>
      intro p t s n _
      exact ⟨subscribe t p s, rfl⟩
  | cons j qs ih =>
      intro p t s n h
      obtain ⟨subs, children⟩ := t
      cases hj : ChildMap.get children j with
      | none =>
          simp only [nodeAt, SubscriberNode.children, hj] at h
          exact absurd h (by simp)
      | some c =>
          simp only [nodeAt, SubscriberNode.children, hj] at h
          cases p with
          | nil =>
              refine ⟨n, ?_⟩
              simp only [subscribe, nodeAt, SubscriberNode.children, hj]
              exact h
          | cons k ps =>
              by_cases hjk : j = k
              · subst hjk
                obtain ⟨n2, hn2⟩ := ih ps c s n h
                refine ⟨n2, ?_⟩
                simp only [subscribe, hj, nodeAt, SubscriberNode.children, get_set_self]
                exact hn2
              · cases hk : ChildMap.get children k with
                | some c0 =>
                    refine ⟨n, ?_⟩
                    simp only [subscribe, hk, nodeAt, SubscriberNode.children,
                      get_set_ne children k (subscribe c0 ps s) j hjk, hj]
                    exact h
                | none =>
                    refine ⟨n, ?_⟩
                    simp only [subscribe, hk, nodeAt, SubscriberNode.children,
                      get_set_ne children k (subscribe createSubNode ps s) j hjk, hj]
                    exact h

/-- `subscribe` creates the subscription path on demand and registers the
callback at its terminal node. -/
theorem nodeAt_subscribe_target :
    ∀ (p : List SubKey) (t : SubscriberNode) (s : Nat),
    ∃ n, nodeAt (subscribe t p s) p = some n ∧ s ∈ n.subs := by
  intro p
  induction p with
  | nil =>
      intro t s
      obtain ⟨subs, children⟩ := t
      exact ⟨.mk (subsAdd subs s) children, rfl, by
        simpa [SubscriberNode.subs] using mem_subsAdd subs s⟩
  | cons k ps ih =>
      intro t s
      obtain ⟨subs, children⟩ := t
      cases hk : ChildMap.get children k with
      | some c =>
          obtain ⟨n, hn, hs⟩ := ih c s
          refine ⟨n, ?_, hs⟩
          simp only [subscribe, hk, nodeAt, SubscriberNode.children, get_set_self]
          exact hn
      | none =>
          obtain ⟨n, hn, hs⟩ := ih createSubNode s
          refine ⟨n, ?_, hs⟩
          simp only [subscribe, hk, nodeAt, SubscriberNode.children, get_set_self]
          exact hn

/-- The unsubscribe closure never deletes a node either: it touches one
listener set only. -/
theorem nodeAt_unsubscribeAt_preserved :
    ∀ (q p : List SubKey) (t : SubscriberNode) (s : Nat) (n : SubscriberNode),
    nodeAt t q = some n → ∃ n2, nodeAt (unsubscribeAt t p s) q = some n2 := by
  intro q
  induction q with
  | nil =>
      intro p t s n _
      exact ⟨unsubscribeAt t p s, rfl⟩
  | cons j qs ih =>
      intro p t s n h
      obtain ⟨subs, children⟩ := t
      cases hj : ChildMap.get children j with
      | none =>
          simp only [nodeAt, SubscriberNode.children, hj] at h
          exact absurd h (by simp)
      | some c =>
          simp only [nodeAt, SubscriberNode.children, hj] at h
          cases p with
          | nil =>
              refine ⟨n, ?_⟩
              simp only [unsubscribeAt, nodeAt, SubscriberNode.children, hj]
              exact h
          | cons k ps =>
              cases hk : ChildMap.get children k with
              | none =>
                  refine ⟨n, ?_⟩
                  simp only [unsubscribeAt, hk, nodeAt, SubscriberNode.children, hj]
                  exact h
              | some c0 =>
                  by_cases hjk : j = k
                  · subst hjk
                    rw [hj] at hk
                    obtain rfl : c = c0 := by injection hk
                    obtain ⟨n2, hn2⟩ := ih ps c s n h
                    refine ⟨n2, ?_⟩
                    simp only [unsubscribeAt, hj, nodeAt, SubscriberNode.children,
                      get_set_self]
                    exact hn2
                  · refine ⟨n, ?_⟩
                    simp only [unsubscribeAt, hk, nodeAt, SubscriberNode.children,
                      get_set_ne children k (unsubscribeAt c0 ps s) j hjk, hj]
                    exact h

/-- Claim C8: `subscribe` never modifies the state snapshot (`getState` is
the same before and after), `getState` is a pure projection of the store,
and no operation deletes a subscription node — `subscribe` preserves every
existing node and creates the subscribed path on demand with the callback
registered at its terminal node, the unsubscribe closure preserves every
node and removes only the listener, and `update` leaves the subscriber tree
untouched. -/
theorem claim_C8 :
    (∀ (T : Type) (st : Store T) (p : List SubKey) (s : Nat),
      (Store.subscribe st p s).state = st.state ∧
      (Store.subscribe st p s).getState = st.getState) ∧
    (∀ (T : Type) (st : Store T), st.getState = st.state) ∧
    (∀ (t : SubscriberNode) (p : List SubKey) (s : Nat) (q : List SubKey)
      (n : SubscriberNode), nodeAt t q = some n →
      ∃ n2, nodeAt (subscribe t p s) q = some n2) ∧
    (∀ (t : SubscriberNode) (p : List SubKey) (s : Nat),
      ∃ n, nodeAt (subscribe t p s) p = some n ∧ s ∈ n.subs) ∧
    (∀ (t : SubscriberNode) (p : List SubKey) (s : Nat) (q : List SubKey)
      (n : SubscriberNode), nodeAt t q = some n →
      ∃ n2, nodeAt (unsubscribeAt t p s) q = some n2) ∧
    (∀ (T E : Type) (st : Store T) (m : T → Except E (T × List (List SubKey))),
      (update st m).store.root = st.root) := by
  refine ⟨?_, ?_, ?_, ?_, ?_, ?_⟩
  · intro T st p s
    exact ⟨rfl, rfl⟩
  · intro T st
    rfl
  · intro t p s q n h
    exact nodeAt_subscribe_preserved q p t s n h
  · intro t p s
    exact nodeAt_subscribe_target p t s
  · intro t p s q n h
    exact nodeAt_unsubscribeAt_preserved q p t s n h
  · intro T E st m
    unfold update
    cases hms : m st.state with
    | error e => rfl
    | ok v => cases v with | mk a b => rfl

/-- Witness for claim C8: subscribing listener 9 at the fresh path `['z']`
of `storeABC` keeps the snapshot, keeps the node at `['a']`, and creates a
node at `['z']` holding 9; unsubscribing keeps the node at `['a','b']`; an
update leaves the tree of `storeABC` untouched. -/
theorem claim_C8_witness :
    (Store.subscribe storeABC [.str "z"] 9).state = storeABC.state ∧
    (∃ n2, nodeAt (subscribe treeABC [.str "z"] 9) [.str "a"] = some n2) ∧
    (∃ n, nodeAt (subscribe treeABC [.str "z"] 9) [.str "z"] = some n ∧ 9 ∈ n.subs) ∧
    (∃ n2, nodeAt (unsubscribeAt treeABC [.str "a"] 1) [.str "a", .str "b"] = some n2) ∧
    (update storeABC (produceOk [[.str "a"]])).store.root = storeABC.root := by
  obtain ⟨h1, _, h3, h4, h5, h6⟩ := claim_C8
  refine ⟨(h1 Nat storeABC [.str "z"] 9).1, ?_, h4 treeABC [.str "z"] 9, ?_, ?_⟩
  · exact h3 treeABC [.str "z"] 9 [.str "a"]
      (.mk [1] (.cons (.str "b") (.mk [2] .nil) (.cons (.str "c") (.mk [3] .nil) .nil)))
      (by decide)
  · exact h5 treeABC [.str "a"] 1 [.str "a", .str "b"] (.mk [2] .nil) (by decide)
  · exact h6 Nat Unit storeABC (produceOk [[.str "a"]])

end AugerState
